import Mathlib

/-!
Verification of the conversation/session engine of the `j178/chatgpt`
terminal client.  The Go sources are embedded shallowly: structs become
structures, methods become functions, slices become lists, `nil`-able
pointers become `Option`, and Go `int` becomes `Int`.  An operation that
would panic in Go (out-of-range slice indexing, `nil` dereference) is
modelled by an `Option` result where `none` marks the panic.
-/

namespace Chatgpt

/-- One question/answer pair (`QnA` in `conversation.go`). -/
structure QnA where
  question : String
  answer : String
deriving DecidableEq

/-- Per-conversation configuration (`ConversationConfig` in `config.go`).
`temperature` is Go `float64`; it is carried opaquely, never computed with. -/
structure ConversationConfig where
  provider : String
  model : String
  prompt : String
  contextLength : Int
  stream : Bool
  temperature : Float
  maxTokens : Int
deriving BEq

/-- The slice of the global configuration the conversation engine reads:
the prompt lookup table and the default conversation configuration. -/
structure GlobalConfig where
  prompts : List (String × String)
  defaultConversation : ConversationConfig
deriving BEq

/-- `GlobalConfig.LookupPrompt`: map lookup returning the key itself when the
key is absent (Go map access yields the zero value `""` for a missing key). -/
def GlobalConfig.lookupPrompt (c : GlobalConfig) (key : String) : String :=
  let prompt := (c.prompts.lookup key).getD ""
  if prompt = "" then key else prompt

/-- `Conversation` (without the back-reference to its manager, which is
re-attached on load and carries no data of its own; functions that read the
manager's config through it take the `GlobalConfig` as a parameter). -/
structure Conversation where
  contextTokens : Int
  config : ConversationConfig
  forgotten : List QnA
  context : List QnA
  pending : Option QnA
deriving BEq

/-- `Conversation.AddQuestion`. -/
def Conversation.addQuestion (c : Conversation) (q : String) : Conversation :=
  { c with pending := some { question := q, answer := "" }, contextTokens := 0 }

/-- `Conversation.UpdatePending`: appends `ans` to the pending answer; when
`done`, moves the pair into `context` and evicts `context[0]` into
`forgotten` if the bound is exceeded.  Silent no-op when `pending` is nil. -/
def Conversation.updatePending (c : Conversation) (ans : String) (done : Bool) : Conversation :=
  match c.pending with
  | none => c
  | some p =>
    let p := { p with answer := p.answer ++ ans }
    if done then
      let ctx := c.context ++ [p]
      if (ctx.length : Int) > c.config.contextLength then
        { c with forgotten := c.forgotten ++ ctx.take 1, context := ctx.drop 1,
                 pending := none, contextTokens := 0 }
      else
        { c with context := ctx, pending := none, contextTokens := 0 }
    else
      { c with pending := some p }

/-- Message roles of `llms.MessageContent` as used by the engine. -/
inductive ChatRole where
  | system
  | human
  | ai
deriving DecidableEq

/-- One chat message: a role plus its text content. -/
structure MessageContent where
  role : ChatRole
  content : String
deriving DecidableEq

/-- The `message` helper: builds a message from a role and text. -/
def message (role : ChatRole) (content : String) : MessageContent :=
  { role := role, content := content }

/-- `Conversation.GetContextMessages`.  The Go method resolves the prompt via
`c.manager.conf`; the manager's config is passed explicitly here. -/
def Conversation.getContextMessages (conf : GlobalConfig) (c : Conversation) :
    List MessageContent :=
  let messages := [message .system (conf.lookupPrompt c.config.prompt)]
  let messages := c.context.foldl
    (fun ms qna => ms ++ [message .human qna.question, message .ai qna.answer]) messages
  match c.pending with
  | some p => messages ++ [message .human p.question]
  | none => messages

/-- `Conversation.ForgetContext`. -/
def Conversation.forgetContext (c : Conversation) : Conversation :=
  { c with forgotten := c.forgotten ++ c.context, context := [], contextTokens := 0 }

/-- `Conversation.PendingAnswer`. -/
def Conversation.pendingAnswer (c : Conversation) : String :=
  match c.pending with
  | none => ""
  | some p => p.answer

/-- `Conversation.LastAnswer`. -/
def Conversation.lastAnswer (c : Conversation) : String :=
  match c.context.getLast? with
  | none => ""
  | some q => q.answer

/-- `Conversation.Len`: counts forgotten and context pairs, plus one when a
pending pair exists. -/
def Conversation.len (c : Conversation) : Int :=
  (c.forgotten.length : Int) + (c.context.length : Int) +
    (match c.pending with | some _ => 1 | none => 0)

/-- `Conversation.GetQuestion`.  `none` models the Go panic from indexing
`c.Context` out of range (reachable: the guard uses `c.Len()`, which counts
the pending pair, while the body indexes only `forgotten ++ context`). -/
def Conversation.getQuestion (c : Conversation) (idx : Int) : Option String :=
  if idx < 0 ∨ idx ≥ c.len then some ""
  else if idx < (c.forgotten.length : Int) then
    (c.forgotten[idx.toNat]?).map QnA.question
  else
    (c.context[idx.toNat - c.forgotten.length]?).map QnA.question

/-- A fresh `Conversation` as built by `ConversationManager.New`. -/
def Conversation.new (conf : ConversationConfig) : Conversation :=
  { contextTokens := 0, config := conf, forgotten := [], context := [], pending := none }

/-- `ConversationManager` (without the file path, which only gates disk
I/O).  `conf` is the unexported pointer to the global configuration. -/
structure ConversationManager where
  conf : GlobalConfig
  conversations : List Conversation
  idx : Int

/-- `ConversationManager.New`: appends a fresh conversation and makes it
current; returns the updated manager together with the new conversation. -/
def ConversationManager.new (m : ConversationManager) (conf : ConversationConfig) :
    ConversationManager × Conversation :=
  let c := Conversation.new conf
  ({ m with conversations := m.conversations ++ [c],
            idx := (m.conversations.length : Int) }, c)

/-- `ConversationManager.RemoveCurr`: deletes the conversation at `idx`;
clamps `idx` to the new last index (may become `-1` on emptying). -/
def ConversationManager.removeCurr (m : ConversationManager) : ConversationManager :=
  if m.conversations.isEmpty then m
  else
    let cs := m.conversations.take m.idx.toNat ++ m.conversations.drop (m.idx.toNat + 1)
    { m with conversations := cs,
             idx := if m.idx ≥ (cs.length : Int) then (cs.length : Int) - 1 else m.idx }

/-- `ConversationManager.SetCurr`: Go scans for the pointer-equal
conversation; pointer identity is modelled as value equality. -/
def ConversationManager.setCurr (m : ConversationManager) (conv : Conversation) :
    ConversationManager :=
  match m.conversations.findIdx? (fun c => c == conv) with
  | none => m
  | some i => { m with idx := (i : Int) }

/-- `ConversationManager.Curr`: lazily creates one conversation from the
default configuration when the collection is empty; otherwise returns the
conversation at `idx` (`none` models the Go panic on an invalid index). -/
def ConversationManager.curr (m : ConversationManager) :
    ConversationManager × Option Conversation :=
  if m.conversations.isEmpty then
    let mc := m.new m.conf.defaultConversation
    (mc.1, some mc.2)
  else
    (m, if m.idx < 0 then none else m.conversations[m.idx.toNat]?)

/-- `ConversationManager.Prev`: decrements `idx`, clamped at `0`;
no-op on an empty collection. -/
def ConversationManager.prev (m : ConversationManager) : ConversationManager :=
  if m.conversations.isEmpty then m
  else
    let i := m.idx - 1
    { m with idx := if i < 0 then 0 else i }

/-- `ConversationManager.Next`: increments `idx`, clamped at the last
index; no-op on an empty collection. -/
def ConversationManager.next (m : ConversationManager) : ConversationManager :=
  if m.conversations.isEmpty then m
  else
    let i := m.idx + 1
    { m with idx := if i ≥ (m.conversations.length : Int) then
                      (m.conversations.length : Int) - 1 else i }

/-- `m.conversations.Curr().<mutation>` in Go mutates the conversation the
returned pointer designates, i.e. the entry at the current index (after the
possible lazy creation inside `Curr`). -/
def ConversationManager.modifyCurr (m : ConversationManager)
    (f : Conversation → Conversation) : ConversationManager :=
  let mc := m.curr
  match mc.2 with
  | none => mc.1
  | some c => { mc.1 with conversations := mc.1.conversations.set mc.1.idx.toNat (f c) }

/-- The slice of the bubbletea `ui.Model` the update loop's admission
control and error handling read and write: the `answering` flag, the
displayed error, the conversation manager, the history-recall cursor and
the text input.  Rendering state (viewport, spinner, styles) is out of
scope. -/
structure UIModel where
  answering : Bool
  err : Option String
  conversations : ConversationManager
  historyIdx : Int
  textInput : String

/-- The key events named by the admission-control rule in
`Model.Update`'s `tea.KeyMsg` case. -/
inductive UIKey where
  | submit
  | newConversation
  | forgetContext
  | removeConversation
  | prevConversation
  | nextConversation
deriving DecidableEq

/-- Reads `m.conversations.Curr().Len()` as the Go code does after a
mutation (the `none` branch models the Go panic on an invalid index). -/
def currLen (m : ConversationManager) : ConversationManager × Int :=
  let mc := m.curr
  (mc.1, (mc.2.map Conversation.len).getD 0)

/-- The `tea.KeyMsg` branches of `Model.Update` for the six guarded key
events, restricted to the modelled fields.  Every branch starts with the
`if m.answering { break }` admission check, exactly as in the source. -/
def updateKey (s : UIModel) (k : UIKey) : UIModel :=
  match k with
  | .submit =>
    if s.answering then s
    else
      let input := s.textInput.trim
      if input = "" then s
      else
        let m1 := s.conversations.modifyCurr (fun c => c.addQuestion input)
        let m2 := currLen m1
        { s with conversations := m2.1, answering := true, textInput := "",
                 historyIdx := m2.2 }
  | .newConversation =>
    if s.answering then s
    else
      { s with err := none,
               conversations := (s.conversations.new
                 s.conversations.conf.defaultConversation).1,
               historyIdx := 0 }
  | .forgetContext =>
    if s.answering then s
    else
      { s with err := none,
               conversations := s.conversations.modifyCurr Conversation.forgetContext }
  | .removeConversation =>
    if s.answering then s
    else
      let m1 := (s.conversations.removeCurr)
      let m2 := currLen m1
      { s with err := none, conversations := m2.1, historyIdx := m2.2 }
  | .prevConversation =>
    if s.answering then s
    else
      let m2 := currLen s.conversations.prev
      { s with err := none, conversations := m2.1, historyIdx := m2.2 }
  | .nextConversation =>
    if s.answering then s
    else
      let m2 := currLen s.conversations.next
      { s with err := none, conversations := m2.1, historyIdx := m2.2 }

/-- The `errMsg` case of `Model.Update`: an error message carrying `isEOF`
(Go: `msg == io.EOF`) and its text.  On EOF with a still-empty pending
answer a reportable error is stored; then `answering` is cleared and the
pending pair is force-closed via `UpdatePending("", true)` on the current
conversation. -/
def handleErrMsg (s : UIModel) (isEOF : Bool) (errText : String) : UIModel :=
  let s1 :=
    if isEOF then
      let mc := s.conversations.curr
      let pa := (mc.2.map Conversation.pendingAnswer).getD ""
      if pa = "" then
        { s with conversations := mc.1, err := some "unexpected EOF, please try again" }
      else
        { s with conversations := mc.1 }
    else
      { s with err := some errText }
  let s2 := { s1 with answering := false }
  { s2 with conversations := s2.conversations.modifyCurr (fun c => c.updatePending "" true) }

/-- Semantics of `retry.Do(fn, retry.Attempts(n), retry.LastErrorOnly(true))`
from the `avast/retry-go` dependency: run `fn` up to `n` times, stop at the
first success, surface only the last error.  `f k` is the outcome of the
`k`-th attempt. -/
def retryDo (n : Nat) (f : Nat → Except String String) (k : Nat) : Except String String :=
  match n with
  | 0 => f k
  | 1 => f k
  | n + 2 =>
    match f k with
    | .ok a => .ok a
    | .error _ => retryDo (n + 1) f (k + 1)

/-- `ChatGPT.Send` of the superseded go-openai client (`part_002`): the
first network interaction of an ask — establishing the stream and
receiving the first fragment when streaming, or the whole call otherwise —
is wrapped in `retry.Do(..., Attempts(3), LastErrorOnly(true))`.  `net k`
abstracts the outcome of that first interaction on attempt `k`; on success
the method returns the first content and `hasMore = conf.Stream`.  The
current llms-based `ChatGPT.Send` in `chatgpt.go` (see `sendCurrent`)
dropped this wrapper. -/
def sendWithRetry (stream : Bool) (net : Nat → Except String String) :
    Except String (String × Bool) :=
  match retryDo 3 net 0 with
  | .error e => .error e
  | .ok content => .ok (content, stream)

/-- `ChatGPT.Recv` of the same `part_002` client: one further read from
the already-open stream, with no retry wrapper.  The stream is the list of
remaining read outcomes; `recv` consumes exactly its head and returns the
rest untouched. -/
def recvOnce (reads : List (Except String String)) :
    Except String String × List (Except String String) :=
  match reads with
  | [] => (.error "EOF", [])
  | r :: rest => (r, rest)

/-- `ChatGPT.Send` of the current `chatgpt.go` (the `Send` the update loop
in `ui/ui.go` actually calls): after the provider lookup — `providerKnown`
abstracts `c.llms[conf.Provider] != nil` — it performs exactly one
`llm.GenerateContent` call and surfaces its error directly; there is no
retry wrapper in this revision.  On success it returns `""` in streaming
mode (fragments were delivered through the callback) and the full content
otherwise.  `net k` abstracts the outcome of the `k`-th network call if
one were made; only `net 0` is ever consulted. -/
def sendCurrent (providerKnown : Bool) (stream : Bool)
    (net : Nat → Except String String) : Except String String :=
  if providerKnown = false then .error "unknown provider"
  else
    match net 0 with
    | .error e => .error e
    | .ok content => if stream then .ok "" else .ok content

/-- JSON values, at the abstraction level of `encoding/json`: objects keep
their key order; integers and floats are kept apart (the engine only ever
decodes what it itself encoded). -/
inductive Jval where
  | jstr : String → Jval
  | jint : Int → Jval
  | jnum : Float → Jval
  | jbool : Bool → Jval
  | jnull : Jval
  | jarr : List Jval → Jval
  | jobj : List (String × Jval) → Jval

/-- `QnA` marshals as `{"question": ..., "answer": ...}`. -/
def QnA.toJson (q : QnA) : Jval :=
  .jobj [("question", .jstr q.question), ("answer", .jstr q.answer)]

/-- `ConversationConfig` marshalling, with `model,omitempty`. -/
def ConversationConfig.toJson (c : ConversationConfig) : Jval :=
  .jobj ([("provider", .jstr c.provider)]
    ++ (if c.model = "" then [] else [("model", .jstr c.model)])
    ++ [("prompt", .jstr c.prompt), ("context_length", .jint c.contextLength),
        ("stream", .jbool c.stream), ("temperature", .jnum c.temperature),
        ("max_tokens", .jint c.maxTokens)])

/-- `Conversation` marshalling: unexported fields are skipped; `forgotten`,
`context` and `pending` carry `omitempty` and are omitted when empty/nil. -/
def Conversation.toJson (c : Conversation) : Jval :=
  .jobj ([("config", c.config.toJson)]
    ++ (if c.forgotten.isEmpty then [] else [("forgotten", .jarr (c.forgotten.map QnA.toJson))])
    ++ (if c.context.isEmpty then [] else [("context", .jarr (c.context.map QnA.toJson))])
    ++ (match c.pending with | none => [] | some p => [("pending", p.toJson)]))

/-- `ConversationManager.Dump` (the marshalled document; writing the file is
I/O): `{"conversations": [...], "last_idx": n}`. -/
def ConversationManager.dumpJson (m : ConversationManager) : Jval :=
  .jobj [("conversations", .jarr (m.conversations.map Conversation.toJson)),
         ("last_idx", .jint m.idx)]

/-- Decode a string field; an absent key keeps the receiver's value
(`dflt`), a key of the wrong JSON type is an unmarshalling error. -/
def fieldStr (o : List (String × Jval)) (key : String) (dflt : String) : Option String :=
  match o.lookup key with
  | none => some dflt
  | some (.jstr s) => some s
  | some _ => none

/-- Decode an int field (see `fieldStr`). -/
def fieldInt (o : List (String × Jval)) (key : String) (dflt : Int) : Option Int :=
  match o.lookup key with
  | none => some dflt
  | some (.jint n) => some n
  | some _ => none

/-- Decode a bool field (see `fieldStr`). -/
def fieldBool (o : List (String × Jval)) (key : String) (dflt : Bool) : Option Bool :=
  match o.lookup key with
  | none => some dflt
  | some (.jbool b) => some b
  | some _ => none

/-- Decode a float field (see `fieldStr`). -/
def fieldNum (o : List (String × Jval)) (key : String) (dflt : Float) : Option Float :=
  match o.lookup key with
  | none => some dflt
  | some (.jnum x) => some x
  | some _ => none

/-- Unmarshal a `QnA`; missing fields keep their zero value `""`. -/
def QnA.fromJson (j : Jval) : Option QnA :=
  match j with
  | .jobj o => do
    let q ← fieldStr o "question" ""
    let a ← fieldStr o "answer" ""
    some { question := q, answer := a }
  | _ => none

/-- Unmarshal a `ConversationConfig`; missing fields keep Go zero values. -/
def ConversationConfig.fromJson (j : Jval) : Option ConversationConfig :=
  match j with
  | .jobj o => do
    let provider ← fieldStr o "provider" ""
    let model ← fieldStr o "model" ""
    let prompt ← fieldStr o "prompt" ""
    let contextLength ← fieldInt o "context_length" 0
    let stream ← fieldBool o "stream" false
    let temperature ← fieldNum o "temperature" 0
    let maxTokens ← fieldInt o "max_tokens" 0
    some { provider := provider, model := model, prompt := prompt,
           contextLength := contextLength, stream := stream,
           temperature := temperature, maxTokens := maxTokens }
  | _ => none

/-- Unmarshal an optional list of `QnA` (absent key → nil slice → `[]`). -/
def decodeQnAList (j : Option Jval) : Option (List QnA) :=
  match j with
  | none => some []
  | some .jnull => some []
  | some (.jarr l) => l.mapM QnA.fromJson
  | some _ => none

/-- Unmarshal a `Conversation`; unexported fields start at their zero
values (`contextTokens = 0`), `pending` is nil when absent. -/
def Conversation.fromJson (j : Jval) : Option Conversation :=
  match j with
  | .jobj o => do
    let config ← match o.lookup "config" with
      | none => some { provider := "", model := "", prompt := "", contextLength := 0,
                       stream := false, temperature := 0, maxTokens := 0 }
      | some jc => ConversationConfig.fromJson jc
    let forgotten ← decodeQnAList (o.lookup "forgotten")
    let context ← decodeQnAList (o.lookup "context")
    let pending ← match o.lookup "pending" with
      | none => some none
      | some .jnull => some none
      | some jp => (QnA.fromJson jp).map some
    some { contextTokens := 0, config := config, forgotten := forgotten,
           context := context, pending := pending }
  | _ => none

/-- `ConversationManager.Load` on an empty store: `NewConversationManager`
builds `{conf, Idx: -1}` and decodes the document into it (the
back-reference re-attachment loop carries no data in this embedding). -/
def ConversationManager.loadJson (conf : GlobalConfig) (j : Jval) :
    Option ConversationManager :=
  match j with
  | .jobj o => do
    let convs ← match o.lookup "conversations" with
      | none => some []
      | some .jnull => some []
      | some (.jarr l) => l.mapM Conversation.fromJson
      | some _ => none
    let idx ← fieldInt o "last_idx" (-1)
    some { conf := conf, conversations := convs, idx := idx }
  | _ => none

/-- The persisted projection of a conversation: its config and the three
Q/A components (the cached token count and back-reference are not saved). -/
def persistedView (c : Conversation) :
    ConversationConfig × List QnA × List QnA × Option QnA :=
  (c.config, c.forgotten, c.context, c.pending)

/-! ### Completed-answer sequences (claims about `UpdatePending` with `done`) -/

/-- One completed answer: an `UpdatePending(ans, done=true)` call on a
conversation whose pending pair is `p` (the claim quantifies over all such
calls, so the pending pair present at the call is a parameter). -/
def completeOne (c : Conversation) (s : QnA × String) : Conversation :=
  Conversation.updatePending { c with pending := some s.1 } s.2 true

/-- A sequence of completed answers. -/
def completeSeq (c : Conversation) (steps : List (QnA × String)) : Conversation :=
  steps.foldl completeOne c

/-- The pair a completion step moves into `context`. -/
def completedPair (s : QnA × String) : QnA :=
  { question := s.1.question, answer := s.1.answer ++ s.2 }

theorem completeOne_config (c : Conversation) (s : QnA × String) :
    (completeOne c s).config = c.config := by
  simp only [completeOne, Conversation.updatePending, if_true]
  split <;> rfl

theorem completeOne_forgotten (c : Conversation) (s : QnA × String) :
    ∃ e, (completeOne c s).forgotten = c.forgotten ++ e := by
  simp only [completeOne, Conversation.updatePending, if_true]
  split
  · exact ⟨_, rfl⟩
  · exact ⟨[], by simp⟩

theorem completeOne_concat (c : Conversation) (s : QnA × String) :
    (completeOne c s).forgotten ++ (completeOne c s).context
      = c.forgotten ++ c.context ++ [completedPair s] := by
  simp only [completeOne, Conversation.updatePending, if_true]
  split
  · simp only []
    rw [List.append_assoc, List.take_append_drop]
    simp [completedPair, List.append_assoc]
  · simp [completedPair]

theorem completeOne_bound (c : Conversation) (s : QnA × String)
    (h : (c.context.length : Int) ≤ c.config.contextLength) :
    ((completeOne c s).context.length : Int) ≤ c.config.contextLength := by
  simp only [completeOne, Conversation.updatePending, if_true]
  split
  · next hgt => simp; omega
  · next hle => simp at hle ⊢; omega

theorem completeSeq_config (c : Conversation) (steps : List (QnA × String)) :
    (completeSeq c steps).config = c.config := by
  induction steps generalizing c with
  | nil => rfl
  | cons s rest ih => simpa [completeSeq, completeOne_config] using
      (ih (completeOne c s)).trans (completeOne_config c s)

theorem completeSeq_bound (c : Conversation) (steps : List (QnA × String))
    (h : (c.context.length : Int) ≤ c.config.contextLength) :
    ((completeSeq c steps).context.length : Int) ≤ c.config.contextLength := by
  induction steps generalizing c with
  | nil => exact h
  | cons s rest ih =>
    have h1 := completeOne_bound c s h
    have h2 := ih (completeOne c s) (by rw [completeOne_config]; exact h1)
    rw [completeOne_config] at h2
    simpa [completeSeq] using h2

theorem completeSeq_forgotten (c : Conversation) (steps : List (QnA × String)) :
    ∃ e, (completeSeq c steps).forgotten = c.forgotten ++ e := by
  induction steps generalizing c with
  | nil => exact ⟨[], by simp [completeSeq]⟩
  | cons s rest ih =>
    obtain ⟨e1, he1⟩ := completeOne_forgotten c s
    obtain ⟨e2, he2⟩ := ih (completeOne c s)
    exact ⟨e1 ++ e2, by simp [completeSeq] at he2 ⊢; rw [he2, he1, List.append_assoc]⟩

theorem completeSeq_concat (c : Conversation) (steps : List (QnA × String)) :
    (completeSeq c steps).forgotten ++ (completeSeq c steps).context
      = c.forgotten ++ c.context ++ steps.map completedPair := by
  induction steps generalizing c with
  | nil => simp [completeSeq]
  | cons s rest ih =>
    have h1 := completeOne_concat c s
    have h2 := ih (completeOne c s)
    simp only [completeSeq] at h2 ⊢
    simp only [List.foldl_cons]
    rw [h2, h1]
    simp [List.append_assoc]

/-- C1.  Starting from `len(context) ≤ context_length`, after each
completed answer the bound still holds; `forgotten` only ever grows at its
end; and the accumulated history `forgotten ++ context` is exactly the
initial history followed by the completed pairs in completion order — so
every evicted entry is the oldest context entry, moved to the end of
`forgotten` in eviction order, never reordered. -/
theorem context_bound_and_eviction_order (c : Conversation)
    (steps : List (QnA × String))
    (h : (c.context.length : Int) ≤ c.config.contextLength) :
    ∀ i : Nat,
      (((completeSeq c (steps.take i)).context.length : Int) ≤ c.config.contextLength)
      ∧ (∃ e, (completeSeq c (steps.take (i + 1))).forgotten
            = (completeSeq c (steps.take i)).forgotten ++ e)
      ∧ (completeSeq c (steps.take i)).forgotten ++ (completeSeq c (steps.take i)).context
          = c.forgotten ++ c.context ++ (steps.take i).map completedPair := by
  intro i
  refine ⟨completeSeq_bound c _ h, ?_, completeSeq_concat c _⟩
  rw [List.take_succ]
  cases hgt : steps[i]? with
  | none => exact ⟨[], by simp⟩
  | some s =>
    obtain ⟨e, he⟩ := completeOne_forgotten (completeSeq c (steps.take i)) s
    exact ⟨e, by simp [completeSeq, List.foldl_append] at he ⊢; exact he⟩

/-- A concrete conversation with `context_length = 1`. -/
def cW1 : Conversation :=
  { contextTokens := 0,
    config := { provider := "openai-1", model := "gpt-3.5-turbo", prompt := "default",
                contextLength := 1, stream := true, temperature := 0, maxTokens := 1024 },
    forgotten := [], context := [], pending := none }

/-- Two completed answers for the witness run. -/
def stepsW : List (QnA × String) :=
  [({ question := "q1", answer := "" }, "a1"), ({ question := "q2", answer := "" }, "a2")]

/-- Witness for `context_bound_and_eviction_order` at a concrete
conversation with `context_length = 1` and two completed answers. -/
theorem context_bound_and_eviction_order_witness :
    ((cW1.context.length : Int) ≤ cW1.config.contextLength)
    ∧ ∀ i : Nat,
      (((completeSeq cW1 (stepsW.take i)).context.length : Int) ≤ cW1.config.contextLength)
      ∧ (∃ e, (completeSeq cW1 (stepsW.take (i + 1))).forgotten
            = (completeSeq cW1 (stepsW.take i)).forgotten ++ e)
      ∧ (completeSeq cW1 (stepsW.take i)).forgotten ++ (completeSeq cW1 (stepsW.take i)).context
          = cW1.forgotten ++ cW1.context ++ (stepsW.take i).map completedPair :=
  ⟨by decide, context_bound_and_eviction_order cW1 stepsW (by decide)⟩

/-! ### Streaming assembly (`AddQuestion` + fragment deliveries) -/

/-- Folding the non-final fragment deliveries
`UpdatePending(fragment, done=false)` over an opened question. -/
def streamFold (c : Conversation) (q : String) (fs : List String) : Conversation :=
  fs.foldl (fun c f => c.updatePending f false) (c.addQuestion q)

theorem accumFalse (fs : List String) (c : Conversation) (p : QnA)
    (h : c.pending = some p) :
    fs.foldl (fun c f => c.updatePending f false) c
      = { c with pending := some { p with answer := fs.foldl (· ++ ·) p.answer } } := by
  induction fs generalizing c p with
  | nil =>
    simp only [List.foldl_nil]
    rw [← h]
  | cons f fs ih =>
    have hstep : c.updatePending f false
        = { c with pending := some { p with answer := p.answer ++ f } } := by
      simp [Conversation.updatePending, h]
    rw [List.foldl_cons, hstep, ih _ { p with answer := p.answer ++ f } rfl]
    rfl

/-- C2 (amended: requires `context_length ≥ 1`, because with
`context_length ≤ 0` the completed pair is immediately evicted to
`forgotten` and `context` has no last entry).  The pending answer right
before the closing call is the concatenation of the earlier fragments; the
closed pair carries question `q` and all fragments including the final one,
sits last in `context`, and `pending` becomes nil. -/
theorem streaming_assembly (c : Conversation) (q : String) (fs : List String)
    (lastFrag : String) (hCL : 1 ≤ c.config.contextLength) :
    (streamFold c q fs).pending
        = some { question := q, answer := fs.foldl (· ++ ·) "" }
    ∧ ((streamFold c q fs).updatePending lastFrag true).context.getLast?
        = some { question := q, answer := fs.foldl (· ++ ·) "" ++ lastFrag }
    ∧ ((streamFold c q fs).updatePending lastFrag true).pending = none := by
  have hmid := accumFalse fs (c.addQuestion q) { question := q, answer := "" } rfl
  rw [streamFold] at *
  refine ⟨by rw [hmid], ?_, ?_⟩
  · rw [hmid]
    simp only [Conversation.updatePending, if_true]
    split
    · next hgt =>
      cases hctx : c.context with
      | nil =>
        exfalso
        simp [Conversation.addQuestion, hctx] at hgt
        omega
      | cons x t =>
        simp [Conversation.addQuestion, hctx, List.getLast?_concat]
    · simp [Conversation.addQuestion, List.getLast?_concat]
  · rw [hmid]
    simp only [Conversation.updatePending, if_true]
    split <;> rfl

/-- A conversation with `context_length = 0`, as a user configuration can
produce (`context_length` is decoded without validation and defaults to the
Go zero value). -/
def convCL0 : Conversation :=
  { contextTokens := 0,
    config := { provider := "openai-1", model := "gpt-3.5-turbo", prompt := "default",
                contextLength := 0, stream := true, temperature := 0, maxTokens := 1024 },
    forgotten := [], context := [], pending := none }

/-- C2 counterexample to the unamended claim: with `context_length = 0`,
after `AddQuestion("q")` and a single closing `UpdatePending("a", true)`
the completed pair is evicted immediately, so `context` has no last entry
whose answer could equal the fragment concatenation `"a"` — the pair sits
in `forgotten` instead. -/
theorem streaming_assembly_counterexample :
    ¬ ((streamFold convCL0 "q" []).updatePending "a" true).context.getLast?
        = some { question := "q", answer := "a" } := by
  decide

/-- Witness for `streaming_assembly`: fresh conversation,
`context_length = 1`, fragments `["Hel", "lo"]` and final fragment `"!"`. -/
theorem streaming_assembly_witness :
    (1 ≤ cW1.config.contextLength)
    ∧ ((streamFold cW1 "hi" ["Hel", "lo"]).pending
          = some { question := "hi", answer := ["Hel", "lo"].foldl (· ++ ·) "" }
      ∧ ((streamFold cW1 "hi" ["Hel", "lo"]).updatePending "!" true).context.getLast?
          = some { question := "hi", answer := ["Hel", "lo"].foldl (· ++ ·) "" ++ "!" }
      ∧ ((streamFold cW1 "hi" ["Hel", "lo"]).updatePending "!" true).pending = none) :=
  ⟨by decide, streaming_assembly cW1 "hi" ["Hel", "lo"] "!" (by decide)⟩

/-! ### Message payload (`GetContextMessages`) -/

/-- The alternating question/answer flattening of one context pair. -/
def qnaMessages (qna : QnA) : List MessageContent :=
  [message .human qna.question, message .ai qna.answer]

theorem foldl_qnaMessages (l : List QnA) (init : List MessageContent) :
    l.foldl (fun ms qna => ms ++ [message .human qna.question, message .ai qna.answer]) init
      = init ++ (l.map qnaMessages).flatten := by
  induction l generalizing init with
  | nil => simp
  | cons qna rest ih => simp [ih, qnaMessages, List.append_assoc]

theorem countP_system_qnaMessages (l : List QnA) :
    (List.map ((List.countP fun m => m.role == ChatRole.system) ∘ qnaMessages) l).sum = 0 := by
  induction l with
  | nil => rfl
  | cons qna rest ih => simp [qnaMessages, List.countP_cons, message, ih]

/-- C3.  The payload is exactly
`[system(resolved prompt)] ++ flatten(context) ++ [human(pending.question) if pending]`,
the system prompt is the first message, and it occurs exactly once. -/
theorem get_context_messages_spec (conf : GlobalConfig) (c : Conversation) :
    Conversation.getContextMessages conf c
      = [message .system (conf.lookupPrompt c.config.prompt)]
        ++ (c.context.map qnaMessages).flatten
        ++ (match c.pending with
            | some p => [message .human p.question]
            | none => [])
    ∧ (Conversation.getContextMessages conf c).head?
        = some (message .system (conf.lookupPrompt c.config.prompt))
    ∧ (Conversation.getContextMessages conf c).countP
        (fun m => m.role == ChatRole.system) = 1 := by
  have hshape : Conversation.getContextMessages conf c
      = [message .system (conf.lookupPrompt c.config.prompt)]
        ++ (c.context.map qnaMessages).flatten
        ++ (match c.pending with
            | some p => [message .human p.question]
            | none => []) := by
    simp only [Conversation.getContextMessages, foldl_qnaMessages]
    cases c.pending <;> simp
  refine ⟨hshape, ?_, ?_⟩
  · rw [hshape]; rfl
  · rw [hshape]
    cases c.pending <;>
      simp [List.countP_append, List.countP_cons, countP_system_qnaMessages, message]

/-! ### History recall (`GetQuestion`) -/

/-- A conversation holding nothing but an open pending pair (the state
right after `AddQuestion` on a fresh conversation, or as restored from a
history file written while an answer was in flight). -/
def convPendingOnly : Conversation :=
  { contextTokens := 0,
    config := { provider := "openai-1", model := "gpt-3.5-turbo", prompt := "default",
                contextLength := 6, stream := true, temperature := 0, maxTokens := 1024 },
    forgotten := [], context := [], pending := some { question := "q", answer := "" } }

/-- C4 divergence.  With a non-nil pending pair, `GetQuestion` at
`i = len(forgotten)+len(context)` passes the range guard (which uses
`Len()`, counting the pending pair) and then indexes `context` out of
range — a Go panic (`none`), not the empty string the claim requires. -/
theorem get_question_panic_divergence :
    convPendingOnly.getQuestion 0 = none
    ∧ ¬ convPendingOnly.getQuestion 0 = some "" := by
  decide

/-! ### Manager index invariant and navigation -/

/-- `0 ≤ idx < len(conversations)` whenever the collection is non-empty. -/
abbrev managerInv (m : ConversationManager) : Prop :=
  0 < m.conversations.length → 0 ≤ m.idx ∧ m.idx < (m.conversations.length : Int)

theorem findIdx?_lt_length {α : Type _} {p : α → Bool} {l : List α} {i : Nat}
    (h : l.findIdx? p = some i) : i < l.length := by
  induction l generalizing i with
  | nil => simp [List.findIdx?] at h
  | cons x xs ih =>
    rw [List.findIdx?_cons] at h
    by_cases hp : p x
    · simp [hp] at h
      subst h
      simp
    · simp [hp] at h
      cases h2 : xs.findIdx? p with
      | none => simp [h2] at h
      | some j =>
        simp [h2] at h
        have hj := ih h2
        simp
        omega

theorem isEmpty_false_of_length_pos {α : Type _} {l : List α} (h : 0 < l.length) :
    l.isEmpty = false := by
  cases l with
  | nil => simp at h
  | cons a b => rfl

theorem managerInv_new (m : ConversationManager) (cfg : ConversationConfig) :
    managerInv (m.new cfg).1 := by
  intro _
  simp [ConversationManager.new]

theorem managerInv_removeCurr (m : ConversationManager) (h : managerInv m) :
    managerInv m.removeCurr := by
  unfold ConversationManager.removeCurr
  split
  · exact h
  · next hne =>
    have hlen : 0 < m.conversations.length := by
      cases hcs : m.conversations with
      | nil => rw [hcs] at hne; exact absurd rfl hne
      | cons a b => simp [hcs]
    obtain ⟨h0, h1⟩ := h hlen
    intro h2
    simp only [List.length_append, List.length_take, List.length_drop] at h2 ⊢
    constructor
    · split <;> omega
    · split <;> omega

theorem managerInv_prev (m : ConversationManager) (h : managerInv m) :
    managerInv m.prev := by
  unfold ConversationManager.prev
  split
  · exact h
  · next hne =>
    have hlen : 0 < m.conversations.length := by
      cases hcs : m.conversations with
      | nil => rw [hcs] at hne; exact absurd rfl hne
      | cons a b => simp [hcs]
    obtain ⟨h0, h1⟩ := h hlen
    intro h2
    dsimp only at h2 ⊢
    constructor
    · split <;> omega
    · split <;> omega

theorem managerInv_next (m : ConversationManager) (h : managerInv m) :
    managerInv m.next := by
  unfold ConversationManager.next
  split
  · exact h
  · next hne =>
    have hlen : 0 < m.conversations.length := by
      cases hcs : m.conversations with
      | nil => rw [hcs] at hne; exact absurd rfl hne
      | cons a b => simp [hcs]
    obtain ⟨h0, h1⟩ := h hlen
    intro h2
    dsimp only at h2 ⊢
    constructor
    · split <;> omega
    · split <;> omega

theorem managerInv_setCurr (m : ConversationManager) (conv : Conversation)
    (h : managerInv m) : managerInv (m.setCurr conv) := by
  unfold ConversationManager.setCurr
  cases hf : m.conversations.findIdx? (fun c => c == conv) with
  | none => exact h
  | some i =>
    intro h2
    have hi := findIdx?_lt_length hf
    dsimp only at h2 ⊢
    constructor
    · exact Int.ofNat_nonneg i
    · exact_mod_cast hi

theorem managerInv_curr (m : ConversationManager) (h : managerInv m) :
    managerInv (m.curr).1 ∧ (m.curr).2.isSome = true := by
  unfold ConversationManager.curr
  split
  · exact ⟨managerInv_new m _, rfl⟩
  · next hne =>
    have hlen : 0 < m.conversations.length := by
      cases hcs : m.conversations with
      | nil => rw [hcs] at hne; exact absurd rfl hne
      | cons a b => simp [hcs]
    obtain ⟨h0, h1⟩ := h hlen
    refine ⟨fun _ => ⟨h0, h1⟩, ?_⟩
    have hnn : ¬ m.idx < 0 := by omega
    have hlt : m.idx.toNat < m.conversations.length := by omega
    simp [hnn, List.getElem?_eq_getElem hlt]

theorem curr_on_empty (m : ConversationManager) (hE : m.conversations = []) :
    m.curr = ({ conf := m.conf,
                conversations := [Conversation.new m.conf.defaultConversation],
                idx := 0 },
              some (Conversation.new m.conf.defaultConversation)) := by
  unfold ConversationManager.curr ConversationManager.new
  simp [hE]

/-- C5.  `0 ≤ idx < len(conversations)` (whenever non-empty) is preserved
by `New`, `RemoveCurr`, `Prev`, `Next`, `SetCurr` and `Curr`; `Curr` never
observably returns nothing, and on an empty collection it appends one
conversation built from the manager's default configuration, makes it
current and returns it. -/
theorem manager_index_invariant (m : ConversationManager) (cfg : ConversationConfig)
    (conv : Conversation) (h : managerInv m) :
    managerInv (m.new cfg).1
    ∧ managerInv m.removeCurr
    ∧ managerInv m.prev
    ∧ managerInv m.next
    ∧ managerInv (m.setCurr conv)
    ∧ managerInv (m.curr).1
    ∧ (m.curr).2.isSome = true
    ∧ (m.conversations = [] →
        m.curr = ({ conf := m.conf,
                    conversations := [Conversation.new m.conf.defaultConversation],
                    idx := 0 },
                  some (Conversation.new m.conf.defaultConversation))) :=
  ⟨managerInv_new m cfg, managerInv_removeCurr m h, managerInv_prev m h,
   managerInv_next m h, managerInv_setCurr m conv h, (managerInv_curr m h).1,
   (managerInv_curr m h).2, curr_on_empty m⟩

/-- A concrete manager with one conversation for witness runs. -/
def mgrW : ConversationManager :=
  { conf := { prompts := [("default", "You are a helpful assistant.")],
              defaultConversation := cW1.config },
    conversations := [cW1], idx := 0 }

/-- Witness for `manager_index_invariant` at `mgrW`. -/
theorem manager_index_invariant_witness :
    managerInv mgrW
    ∧ (managerInv (mgrW.new cW1.config).1
      ∧ managerInv mgrW.removeCurr
      ∧ managerInv mgrW.prev
      ∧ managerInv mgrW.next
      ∧ managerInv (mgrW.setCurr cW1)
      ∧ managerInv (mgrW.curr).1
      ∧ (mgrW.curr).2.isSome = true
      ∧ (mgrW.conversations = [] →
          mgrW.curr = ({ conf := mgrW.conf,
                         conversations := [Conversation.new mgrW.conf.defaultConversation],
                         idx := 0 },
                       some (Conversation.new mgrW.conf.defaultConversation)))) :=
  ⟨by decide, manager_index_invariant mgrW cW1.config cW1 (by decide)⟩

/-- Repeated application of a navigation operation. -/
def iterOp (f : ConversationManager → ConversationManager) :
    Nat → ConversationManager → ConversationManager
  | 0, m => m
  | n + 1, m => iterOp f n (f m)

theorem prev_step (m : ConversationManager) (hlen : 0 < m.conversations.length)
    (h0 : 0 ≤ m.idx) (h1 : m.idx < (m.conversations.length : Int)) :
    (m.prev).conversations = m.conversations
    ∧ 0 ≤ (m.prev).idx ∧ (m.prev).idx < (m.conversations.length : Int) := by
  unfold ConversationManager.prev
  simp only [isEmpty_false_of_length_pos hlen, Bool.false_eq_true, if_false]
  refine ⟨trivial, ?_, ?_⟩ <;> split <;> omega

theorem next_step (m : ConversationManager) (hlen : 0 < m.conversations.length)
    (h0 : 0 ≤ m.idx) (h1 : m.idx < (m.conversations.length : Int)) :
    (m.next).conversations = m.conversations
    ∧ 0 ≤ (m.next).idx ∧ (m.next).idx < (m.conversations.length : Int) := by
  unfold ConversationManager.next
  simp only [isEmpty_false_of_length_pos hlen, Bool.false_eq_true, if_false]
  refine ⟨trivial, ?_, ?_⟩ <;> split <;> omega

theorem iter_prev_spec (k : Nat) :
    ∀ m : ConversationManager, 0 < m.conversations.length → 0 ≤ m.idx →
      m.idx < (m.conversations.length : Int) →
      (iterOp ConversationManager.prev k m).conversations = m.conversations
      ∧ 0 ≤ (iterOp ConversationManager.prev k m).idx
      ∧ (iterOp ConversationManager.prev k m).idx < (m.conversations.length : Int) := by
  induction k with
  | zero => exact fun m _ h0 h1 => ⟨rfl, h0, h1⟩
  | succ n ih =>
    intro m hlen h0 h1
    obtain ⟨hc, h0s, h1s⟩ := prev_step m hlen h0 h1
    obtain ⟨hc2, h02, h12⟩ := ih m.prev (by rw [hc]; exact hlen) h0s (by rw [hc]; exact h1s)
    exact ⟨by rw [iterOp, hc2, hc], h02, by rw [hc] at h12; exact h12⟩

theorem iter_next_spec (k : Nat) :
    ∀ m : ConversationManager, 0 < m.conversations.length → 0 ≤ m.idx →
      m.idx < (m.conversations.length : Int) →
      (iterOp ConversationManager.next k m).conversations = m.conversations
      ∧ 0 ≤ (iterOp ConversationManager.next k m).idx
      ∧ (iterOp ConversationManager.next k m).idx < (m.conversations.length : Int) := by
  induction k with
  | zero => exact fun m _ h0 h1 => ⟨rfl, h0, h1⟩
  | succ n ih =>
    intro m hlen h0 h1
    obtain ⟨hc, h0s, h1s⟩ := next_step m hlen h0 h1
    obtain ⟨hc2, h02, h12⟩ := ih m.next (by rw [hc]; exact hlen) h0s (by rw [hc]; exact h1s)
    exact ⟨by rw [iterOp, hc2, hc], h02, by rw [hc] at h12; exact h12⟩

/-- C6.  From any valid index of a non-empty manager, repeated `Prev` never
goes negative and repeated `Next` never exceeds `len-1`; `Prev` at index 0
stays at 0 and `Next` at the last index stays there — no wrap-around. -/
theorem navigation_clamped (m : ConversationManager)
    (hlen : 0 < m.conversations.length)
    (h0 : 0 ≤ m.idx) (h1 : m.idx < (m.conversations.length : Int)) :
    (∀ k, 0 ≤ (iterOp ConversationManager.prev k m).idx
        ∧ (iterOp ConversationManager.prev k m).idx ≤ (m.conversations.length : Int) - 1)
    ∧ (∀ k, 0 ≤ (iterOp ConversationManager.next k m).idx
        ∧ (iterOp ConversationManager.next k m).idx ≤ (m.conversations.length : Int) - 1)
    ∧ (m.idx = 0 → (m.prev).idx = 0)
    ∧ (m.idx = (m.conversations.length : Int) - 1 →
        (m.next).idx = (m.conversations.length : Int) - 1) := by
  refine ⟨?_, ?_, ?_, ?_⟩
  · intro k
    obtain ⟨_, a, b⟩ := iter_prev_spec k m hlen h0 h1
    exact ⟨a, by omega⟩
  · intro k
    obtain ⟨_, a, b⟩ := iter_next_spec k m hlen h0 h1
    exact ⟨a, by omega⟩
  · intro hz
    unfold ConversationManager.prev
    simp only [isEmpty_false_of_length_pos hlen, Bool.false_eq_true, if_false]
    split <;> omega
  · intro hz
    unfold ConversationManager.next
    simp only [isEmpty_false_of_length_pos hlen, Bool.false_eq_true, if_false]
    split <;> omega

/-- Witness for `navigation_clamped` at the one-conversation manager. -/
theorem navigation_clamped_witness :
    (0 < mgrW.conversations.length ∧ 0 ≤ mgrW.idx
      ∧ mgrW.idx < (mgrW.conversations.length : Int))
    ∧ ((∀ k, 0 ≤ (iterOp ConversationManager.prev k mgrW).idx
        ∧ (iterOp ConversationManager.prev k mgrW).idx ≤ (mgrW.conversations.length : Int) - 1)
      ∧ (∀ k, 0 ≤ (iterOp ConversationManager.next k mgrW).idx
        ∧ (iterOp ConversationManager.next k mgrW).idx ≤ (mgrW.conversations.length : Int) - 1)
      ∧ (mgrW.idx = 0 → (mgrW.prev).idx = 0)
      ∧ (mgrW.idx = (mgrW.conversations.length : Int) - 1 →
          (mgrW.next).idx = (mgrW.conversations.length : Int) - 1)) :=
  ⟨⟨by decide, by decide, by decide⟩,
   navigation_clamped mgrW (by decide) (by decide) (by decide)⟩

/-! ### Update-loop admission control and EOF policy -/

/-- C9.  While `answering` is set, each of the six guarded key events
(submit, new/remove conversation, forget context, previous/next
conversation) leaves the conversation manager — and with it every
conversation — unchanged. -/
theorem answering_admission_control (s : UIModel) (k : UIKey)
    (h : s.answering = true) :
    (updateKey s k).conversations = s.conversations := by
  cases k <;> simp [updateKey, h]

/-- Witness for `answering_admission_control` on a concrete answering
state and the submit key. -/
theorem answering_admission_control_witness :
    ({ answering := true, err := none, conversations := mgrW, historyIdx := 0,
       textInput := "hello" } : UIModel).answering = true
    ∧ (updateKey { answering := true, err := none, conversations := mgrW,
                   historyIdx := 0, textInput := "hello" } UIKey.submit).conversations
        = ({ answering := true, err := none, conversations := mgrW, historyIdx := 0,
             textInput := "hello" } : UIModel).conversations :=
  ⟨rfl, answering_admission_control
    { answering := true, err := none, conversations := mgrW, historyIdx := 0,
      textInput := "hello" } UIKey.submit rfl⟩

/-- The pending answer of the current conversation as the update loop
reads it (`m.conversations.Curr().PendingAnswer()`). -/
def currPendingAnswer (s : UIModel) : String :=
  ((s.conversations.curr).2.map Conversation.pendingAnswer).getD ""

theorem updatePending_done_pending (c : Conversation) (ans : String) :
    (c.updatePending ans true).pending = none := by
  unfold Conversation.updatePending
  cases h : c.pending with
  | none => simpa using h
  | some p => simp only [if_true]; split <;> rfl

theorem curr_of_valid (m : ConversationManager) (hlen : 0 < m.conversations.length)
    (h0 : 0 ≤ m.idx) (h1 : m.idx < (m.conversations.length : Int)) :
    m.curr = (m, some (m.conversations.get ⟨m.idx.toNat, by omega⟩)) := by
  unfold ConversationManager.curr
  have hnn : ¬ m.idx < 0 := by omega
  have hlt : m.idx.toNat < m.conversations.length := by omega
  simp [isEmpty_false_of_length_pos hlen, hnn, List.getElem?_eq_getElem hlt]

theorem modifyCurr_curr (m : ConversationManager) (f : Conversation → Conversation)
    (h : managerInv m) :
    ((m.modifyCurr f).curr).2 = ((m.curr).2.map f) := by
  by_cases hE : m.conversations.length = 0
  · have hnil : m.conversations = [] := List.length_eq_zero.mp hE
    obtain ⟨cf, cs, ix⟩ := m
    simp only at hnil
    subst hnil
    simp [ConversationManager.modifyCurr, ConversationManager.curr,
          ConversationManager.new, List.set]
  · have hlen : 0 < m.conversations.length := Nat.pos_of_ne_zero hE
    obtain ⟨h0, h1⟩ := h hlen
    unfold ConversationManager.modifyCurr
    rw [curr_of_valid m hlen h0 h1]
    dsimp only
    rw [curr_of_valid
      { conf := m.conf,
        conversations := m.conversations.set m.idx.toNat
          (f (m.conversations.get ⟨m.idx.toNat, by omega⟩)),
        idx := m.idx }
      (by simpa [List.length_set] using hlen) h0
      (by simpa [List.length_set] using h1)]
    simp [List.get_set_eq]

/-- C8.  On a stream-termination (EOF) error event: an empty pending
answer yields the reportable error `"unexpected EOF, please try again"`;
a non-empty pending answer surfaces nothing (the error display is left as
it was); in both cases `answering` is cleared and the pending pair of the
current conversation is force-closed via `UpdatePending("", done=true)`. -/
theorem curr_idempotent (m : ConversationManager) (h : managerInv m) :
    ((m.curr).1).curr = m.curr := by
  by_cases hE : m.conversations.length = 0
  · have hnil : m.conversations = [] := List.length_eq_zero.mp hE
    obtain ⟨cf, cs, ix⟩ := m
    simp only at hnil
    subst hnil
    simp [ConversationManager.curr, ConversationManager.new]
  · have hlen : 0 < m.conversations.length := Nat.pos_of_ne_zero hE
    obtain ⟨h0, h1⟩ := h hlen
    rw [curr_of_valid m hlen h0 h1]
    exact curr_of_valid m hlen h0 h1

theorem eof_termination_policy (s : UIModel) (t : String)
    (h : managerInv s.conversations) :
    (currPendingAnswer s = "" →
      (handleErrMsg s true t).err = some "unexpected EOF, please try again")
    ∧ (¬ currPendingAnswer s = "" → (handleErrMsg s true t).err = s.err)
    ∧ (handleErrMsg s true t).answering = false
    ∧ ((handleErrMsg s true t).conversations.curr).2
        = ((s.conversations.curr).2.map (fun c => c.updatePending "" true))
    ∧ (∃ c', ((handleErrMsg s true t).conversations.curr).2 = some c'
        ∧ c'.pending = none) := by
  have hinv1 : managerInv ((s.conversations.curr).1) := (managerInv_curr s.conversations h).1
  have hsome := (managerInv_curr s.conversations h).2
  obtain ⟨c0, hc0⟩ := Option.isSome_iff_exists.mp hsome
  have hmap := modifyCurr_curr ((s.conversations.curr).1)
    (fun c => c.updatePending "" true) hinv1
  rw [curr_idempotent s.conversations h] at hmap
  by_cases hpa : currPendingAnswer s = ""
  · have hH : handleErrMsg s true t
        = { answering := false, err := some "unexpected EOF, please try again",
            conversations := ((s.conversations.curr).1).modifyCurr
              (fun c => c.updatePending "" true),
            historyIdx := s.historyIdx, textInput := s.textInput } := by
      unfold handleErrMsg
      have hpa2 : ((s.conversations.curr).2.map Conversation.pendingAnswer).getD "" = "" := hpa
      simp [hpa2]
    refine ⟨fun _ => by simp [hH], fun hn => absurd hpa hn, by simp [hH], ?_, ?_⟩
    · simp only [hH]
      exact hmap
    · simp only [hH]
      rw [hmap, hc0]
      exact ⟨c0.updatePending "" true, rfl, updatePending_done_pending c0 ""⟩
  · have hH : handleErrMsg s true t
        = { answering := false, err := s.err,
            conversations := ((s.conversations.curr).1).modifyCurr
              (fun c => c.updatePending "" true),
            historyIdx := s.historyIdx, textInput := s.textInput } := by
      unfold handleErrMsg
      have hpa2 : ¬ ((s.conversations.curr).2.map Conversation.pendingAnswer).getD "" = "" := hpa
      simp [hpa2]
    refine ⟨fun he => absurd he hpa, fun _ => by simp [hH], by simp [hH], ?_, ?_⟩
    · simp only [hH]
      exact hmap
    · simp only [hH]
      rw [hmap, hc0]
      exact ⟨c0.updatePending "" true, rfl, updatePending_done_pending c0 ""⟩

/-- A concrete update-loop state over `mgrW` for witness runs. -/
def uiW : UIModel :=
  { answering := true, err := none, conversations := mgrW, historyIdx := 0,
    textInput := "" }

/-- Witness for `eof_termination_policy` at `uiW`. -/
theorem eof_termination_policy_witness :
    managerInv uiW.conversations
    ∧ ((currPendingAnswer uiW = "" →
        (handleErrMsg uiW true "boom").err = some "unexpected EOF, please try again")
      ∧ (¬ currPendingAnswer uiW = "" → (handleErrMsg uiW true "boom").err = uiW.err)
      ∧ (handleErrMsg uiW true "boom").answering = false
      ∧ ((handleErrMsg uiW true "boom").conversations.curr).2
          = ((uiW.conversations.curr).2.map (fun c => c.updatePending "" true))
      ∧ (∃ c', ((handleErrMsg uiW true "boom").conversations.curr).2 = some c'
          ∧ c'.pending = none)) :=
  ⟨by decide, eof_termination_policy uiW "boom" (by decide)⟩

/-! ### Send retry policy and mid-stream reads -/

/-- The superseded `part_002` client's behavior, for contrast with
`sendCurrent`: wrapped in `retry.Do(..., Attempts(3), LastErrorOnly(true))`,
a send whose first network interaction fails twice then succeeds on the
third attempt succeeds overall; one failing three times surfaces exactly
the last error; the outcome never depends on any attempt beyond the third
(no 4th attempt); and a read from an already-open stream consumes exactly
one outcome with no retry — its error is returned as-is. -/
theorem send_retry_policy (stream : Bool) (net net2 : Nat → Except String String)
    (e0 e1 e2 : String) (v : String) (rest : List (Except String String))
    (hfail0 : net 0 = .error e0) (hfail1 : net 1 = .error e1)
    (hagree : ∀ k, k < 3 → net k = net2 k) :
    (net 2 = .ok v → sendWithRetry stream net = .ok (v, stream))
    ∧ (net 2 = .error e2 → sendWithRetry stream net = .error e2)
    ∧ sendWithRetry stream net = sendWithRetry stream net2
    ∧ recvOnce (.error e2 :: rest) = (.error e2, rest) := by
  refine ⟨?_, ?_, ?_, rfl⟩
  · intro hok
    simp [sendWithRetry, retryDo, hfail0, hfail1, hok]
  · intro herr
    simp [sendWithRetry, retryDo, hfail0, hfail1, herr]
  · have h0 := hagree 0 (by omega)
    have h1 := hagree 1 (by omega)
    have h2 := hagree 2 (by omega)
    simp [sendWithRetry, retryDo, ← h0, ← h1, ← h2, hfail0, hfail1]

/-- A concrete attempt sequence: two failures then success. -/
def netW : Nat → Except String String :=
  fun k => if k = 0 then .error "e0" else if k = 1 then .error "e1" else .ok "first chunk"

/-- Witness for `send_retry_policy` on `netW`. -/
theorem send_retry_policy_witness :
    (netW 0 = .error "e0" ∧ netW 1 = .error "e1"
      ∧ (∀ k, k < 3 → netW k = netW k))
    ∧ ((netW 2 = .ok "first chunk" →
          sendWithRetry true netW = .ok ("first chunk", true))
      ∧ (netW 2 = .error "e2" → sendWithRetry true netW = .error "e2")
      ∧ sendWithRetry true netW = sendWithRetry true netW
      ∧ recvOnce (.error "e2" :: []) = (.error "e2", [])) :=
  ⟨⟨rfl, rfl, fun _ _ => rfl⟩,
   send_retry_policy true netW netW "e0" "e1" "e2" "first chunk" []
     rfl rfl (fun _ _ => rfl)⟩

/-- C7 divergence.  The retry policy does not hold on the `Send` the
update loop actually calls: the current `chatgpt.go` `ChatGPT.Send` makes
a single network attempt.  At the claim's own scenario — the first
interaction fails twice and the third attempt would succeed, so the claim
requires an overall success — the code surfaces the very first error and
never reaches the would-be successful attempt, in streaming and
non-streaming mode alike.  The 3-attempt wrapper the spec mandates exists
only in the superseded `part_002` client (`send_retry_policy`). -/
theorem send_no_retry_divergence :
    (netW 0 = .error "e0" ∧ netW 1 = .error "e1" ∧ netW 2 = .ok "first chunk")
    ∧ sendCurrent true true netW = .error "e0"
    ∧ sendCurrent true false netW = .error "e0" :=
  ⟨⟨rfl, rfl, rfl⟩, rfl, rfl⟩

/-! ### Persistence round trip (`Dump` / `Load`) -/

theorem qna_roundtrip (q : QnA) : QnA.fromJson (QnA.toJson q) = some q := rfl

theorem qnaList_roundtrip_loop (l : List QnA) (acc : List QnA) :
    List.mapM.loop QnA.fromJson (l.map QnA.toJson) acc = some (acc.reverse ++ l) := by
  induction l generalizing acc with
  | nil => simp [List.mapM.loop]
  | cons q rest ih =>
    simp only [List.map_cons, List.mapM.loop, qna_roundtrip, Option.some_bind]
    simpa using ih (q :: acc)

theorem qnaList_roundtrip (l : List QnA) :
    (l.map QnA.toJson).mapM QnA.fromJson = some l := by
  simpa [List.mapM] using qnaList_roundtrip_loop l []

theorem config_roundtrip (c : ConversationConfig) :
    ConversationConfig.fromJson c.toJson = some c := by
  obtain ⟨pr, mo, pp, cl, st, te, mt⟩ := c
  by_cases hm : mo = ""
  · subst hm
    simp [ConversationConfig.toJson, ConversationConfig.fromJson,
          fieldStr, fieldInt, fieldBool, fieldNum, List.lookup]
  · simp [ConversationConfig.toJson, ConversationConfig.fromJson, hm,
          fieldStr, fieldInt, fieldBool, fieldNum, List.lookup]

theorem conv_roundtrip (c : Conversation) :
    Conversation.fromJson c.toJson = some { c with contextTokens := 0 } := by
  obtain ⟨ct, cfg, fg, cx, pd⟩ := c
  have hcfg := config_roundtrip cfg
  by_cases hf : fg = []
  · subst hf
    by_cases hx : cx = []
    · subst hx
      cases pd <;>
        simp [Conversation.toJson, Conversation.fromJson, List.lookup, fieldStr,
              decodeQnAList, QnA.toJson, QnA.fromJson, qna_roundtrip, hcfg]
    · have hx2 : cx.isEmpty = false := isEmpty_false_of_length_pos (List.length_pos.mpr hx)
      cases pd <;>
        simp [Conversation.toJson, Conversation.fromJson, hx2, List.lookup, fieldStr,
              decodeQnAList, QnA.toJson, QnA.fromJson, qnaList_roundtrip,
              qnaList_roundtrip_loop, qna_roundtrip, hcfg]
  · have hf2 : fg.isEmpty = false := isEmpty_false_of_length_pos (List.length_pos.mpr hf)
    by_cases hx : cx = []
    · subst hx
      cases pd <;>
        simp [Conversation.toJson, Conversation.fromJson, hf2, List.lookup, fieldStr,
              decodeQnAList, QnA.toJson, QnA.fromJson, qnaList_roundtrip,
              qnaList_roundtrip_loop, qna_roundtrip, hcfg]
    · have hx2 : cx.isEmpty = false := isEmpty_false_of_length_pos (List.length_pos.mpr hx)
      cases pd <;>
        simp [Conversation.toJson, Conversation.fromJson, hf2, hx2, List.lookup, fieldStr,
              decodeQnAList, QnA.toJson, QnA.fromJson, qnaList_roundtrip,
              qnaList_roundtrip_loop, qna_roundtrip, hcfg]

theorem convList_roundtrip_loop (l acc : List Conversation) :
    List.mapM.loop Conversation.fromJson (l.map Conversation.toJson) acc
      = some (acc.reverse ++ l.map (fun c => { c with contextTokens := 0 })) := by
  induction l generalizing acc with
  | nil => simp [List.mapM.loop]
  | cons c rest ih =>
    simp only [List.map_cons, List.mapM.loop, conv_roundtrip, Option.some_bind]
    simpa using ih ({ c with contextTokens := 0 } :: acc)

/-- C10.  Dumping the manager and loading the document back into a fresh
manager reproduces the persisted state exactly: the same current index and
the same sequence of conversations — same config, forgotten, context and
pending — for arbitrary managers, including conversations whose
`forgotten`/`context`/`pending` are empty and hence omitted from the
document.  (The unexported token-count cache and the back-reference are
not persisted.) -/
theorem dump_load_roundtrip (m : ConversationManager) :
    ∃ m2, ConversationManager.loadJson m.conf m.dumpJson = some m2
      ∧ m2.conf = m.conf
      ∧ m2.idx = m.idx
      ∧ m2.conversations.map persistedView = m.conversations.map persistedView := by
  have hm : List.mapM.loop Conversation.fromJson
        (m.conversations.map Conversation.toJson) []
      = some (m.conversations.map fun c => { c with contextTokens := 0 }) := by
    simpa using convList_roundtrip_loop m.conversations []
  refine ⟨{ conf := m.conf,
            conversations := m.conversations.map (fun c => { c with contextTokens := 0 }),
            idx := m.idx }, ?_, rfl, rfl, ?_⟩
  · unfold ConversationManager.dumpJson ConversationManager.loadJson
    simp [List.lookup, fieldInt, hm]
  · simp [persistedView, List.map_map, Function.comp]

end Chatgpt
